import Mathlib

/-!
Verification of the creditkudos/eidas repository (qualified-statement codec,
CSR extension assembly, subject building) against its natural-language
specification.

Modelling conventions:
* Go byte slices and Go strings are modelled as `List Nat`, each element a
  byte value (< 256 for data produced by the encoders).
* Fallible Go functions returning `(T, error)` are modelled as `Option T`.
* The DER encoding/decoding performed by Go's `encoding/asn1` package is
  embedded explicitly below, restricted to the forms this repository uses
  (SEQUENCE / SET / OBJECT IDENTIFIER / UTF8String / PrintableString /
  OCTET STRING / BIT STRING, definite lengths).  Two resource caps of the Go
  parser are not modelled: Go rejects element lengths that do not fit in a
  31-bit int and OID arcs above `math.MaxInt32`; no feasible input of this
  codec reaches either bound, and the model keeps those quantities unbounded.
-/

namespace Eidas

/-- Go strings are byte strings; this helper writes the byte list of an ASCII
string literal used by the repository (all string constants in the repository
are ASCII, so these bytes equal the UTF-8 bytes of the Go string). -/
def str (s : String) : List Nat := s.data.map Char.toNat

/-- Option-valued map over a list, failing at the first failing element, as
the Go loops that build one encoded item per input element do. -/
def mapOpt {α β : Type} (f : α → Option β) : List α → Option (List β)
  | [] => some []
  | a :: l => (f a).bind fun b => (mapOpt f l).map (b :: ·)

/-! ## DER length octets (`encoding/asn1` parseTagAndLength / lengths) -/

/-- Minimal big-endian base-256 digits of `n` (used for long-form lengths).
Fuel-driven so that the kernel can evaluate it; the wrapper `base256` supplies
sufficient fuel. -/
def base256F : Nat → Nat → List Nat
  | 0, n => [n % 256]
  | f + 1, n => if n < 256 then [n] else base256F f (n / 256) ++ [n % 256]

def base256 (n : Nat) : List Nat := base256F n n

/-- Value of big-endian base-256 digits. -/
def base256Val (l : List Nat) : Nat := l.foldl (fun a b => a * 256 + b) 0

/-- DER length octets: short form below 128, otherwise long form with the
count of length bytes in the first octet (Go `appendLength`). -/
def lenEncode (n : Nat) : List Nat :=
  if n < 128 then [n]
  else
    let ds := base256 n
    (128 + ds.length) :: ds

/-- DER length decoding, mirroring Go `parseTagAndLength`: short form below
0x80; 0x80 itself (indefinite length) rejected; long form reads the stated
number of bytes, rejecting a leading zero byte and values below 0x80
(non-minimal encodings). -/
def lenDecode : List Nat → Option (Nat × List Nat)
  | [] => none
  | b :: rest =>
    if b < 128 then some (b, rest)
    else
      let numBytes := b - 128
      if numBytes = 0 then none
      else if numBytes ≤ rest.length then
        let ds := rest.take numBytes
        if ds.head? = some 0 then none
        else
          let v := base256Val ds
          if v < 128 then none else some (v, rest.drop numBytes)
      else none

/-- One DER element: identifier octet, length octets, content octets.
All tags used by this repository fit in a single identifier octet. -/
def encTLV (tag : Nat) (content : List Nat) : List Nat :=
  tag :: lenEncode content.length ++ content

/-- Split one DER element off the front of a byte string: returns the
identifier octet, the content octets, and the remaining bytes.  Mirrors Go
`parseTagAndLength` plus the bounds check in `parseField` (low-tag-number
identifier octets only, which covers every tag this codec can meet). -/
def parseTLV : List Nat → Option (Nat × List Nat × List Nat)
  | [] => none
  | t :: rest =>
    (lenDecode rest).bind fun p =>
      if p.1 ≤ p.2.length then some (t, p.2.take p.1, p.2.drop p.1) else none

/-! ## Base-128 OID arcs (`encoding/asn1` marshalBase128Int / parseBase128Int) -/

def base128DigitsF : Nat → Nat → List Nat
  | 0, _ => []
  | f + 1, n => if n = 0 then [] else base128DigitsF f (n / 128) ++ [n % 128]

/-- Big-endian base-128 digits of `n` (empty for 0). -/
def base128Digits (n : Nat) : List Nat := base128DigitsF n n

/-- Encoding of one OID subidentifier: all digits carry the continuation bit
except the last (Go `appendBase128Int`). -/
def base128Enc (n : Nat) : List Nat :=
  (base128Digits (n / 128)).map (· + 128) ++ [n % 128]

/-- Accumulating base-128 parse of one subidentifier (Go `parseBase128Int`
body).  Stops at the first byte without the continuation bit. -/
def base128Parse : Nat → List Nat → Option (Nat × List Nat)
  | _, [] => none
  | acc, b :: rest =>
    let acc2 := acc * 128 + b % 128
    if b < 128 then some (acc2, rest) else base128Parse acc2 rest

/-- One subidentifier with Go's minimality check: a leading 0x80 byte is
rejected (`base 128 integer is not minimally encoded`). -/
def parseSubident : List Nat → Option (Nat × List Nat)
  | [] => none
  | b :: rest => if b = 128 then none else base128Parse 0 (b :: rest)

def parseSubidentsF : Nat → List Nat → Option (List Nat)
  | 0, [] => some []
  | 0, _ :: _ => none
  | _ + 1, [] => some []
  | f + 1, b :: rest =>
    (parseSubident (b :: rest)).bind fun p =>
      (parseSubidentsF f p.2).map (p.1 :: ·)

/-- All subidentifiers of an OID content string. -/
def parseSubidents (l : List Nat) : Option (List Nat) := parseSubidentsF l.length l

/-- Go `Marshal` validity condition for an ObjectIdentifier. -/
def oidValidB (oid : List Nat) : Bool :=
  match oid with
  | a :: b :: _ => a ≤ 2 && (a = 2 || b < 40)
  | _ => false

/-- OID content octets: first two arcs packed as `40*a+b`, remaining arcs in
base 128 (Go `makeObjectIdentifier`). -/
def encodeOIDContent (oid : List Nat) : List Nat :=
  match oid with
  | a :: b :: rest => base128Enc (40 * a + b) ++ rest.flatMap base128Enc
  | _ => []

/-- Marshal of an ObjectIdentifier element, failing on Go's validity check. -/
def encodeOID (oid : List Nat) : Option (List Nat) :=
  if oidValidB oid then some (encTLV 6 (encodeOIDContent oid)) else none

/-- OID content decoding (Go `parseObjectIdentifier`): non-empty, first
subidentifier split as two arcs (below 80: `v/40`, `v%40`; otherwise `2`,
`v-80`), remaining subidentifiers appended. -/
def decodeOIDContent (l : List Nat) : Option (List Nat) :=
  match l with
  | [] => none
  | _ =>
    (parseSubident l).bind fun p =>
      (parseSubidents p.2).map fun rest =>
        (if p.1 < 80 then [p.1 / 40, p.1 % 40] else [2, p.1 - 80]) ++ rest

/-! ## Go string encodings -/

/-- Character set accepted when parsing a PrintableString (Go `isPrintable`
with asterisk and ampersand allowed, as the parser uses it). -/
def printableParseByte (b : Nat) : Bool :=
  (97 ≤ b && b ≤ 122) || (65 ≤ b && b ≤ 90) || (48 ≤ b && b ≤ 57) ||
  (39 ≤ b && b ≤ 41) || (43 ≤ b && b ≤ 47) ||
  b = 32 || b = 58 || b = 61 || b = 63 || b = 42 || b = 38

/-- Character set Go's `Marshal` requires before choosing PrintableString for
an untagged string (asterisk and ampersand rejected). -/
def printableMarshalByte (b : Nat) : Bool :=
  (97 ≤ b && b ≤ 122) || (65 ≤ b && b ≤ 90) || (48 ≤ b && b ≤ 57) ||
  (39 ≤ b && b ≤ 41) || (43 ≤ b && b ≤ 47) ||
  b = 32 || b = 58 || b = 61 || b = 63

def isContByte (b : Nat) : Bool := 128 ≤ b && b ≤ 191

/-- UTF-8 validity of a byte string (RFC 3629 table, as enforced by Go
`utf8.Valid` / `parseUTF8String`). -/
def utf8Valid : List Nat → Bool
  | [] => true
  | b :: rest =>
    if b ≤ 127 then utf8Valid rest
    else if 194 ≤ b && b ≤ 223 then
      match rest with
      | c1 :: rest2 => isContByte c1 && utf8Valid rest2
      | [] => false
    else if b = 224 then
      match rest with
      | c1 :: c2 :: rest2 => (160 ≤ c1 && c1 ≤ 191) && isContByte c2 && utf8Valid rest2
      | _ => false
    else if (225 ≤ b && b ≤ 236) || b = 238 || b = 239 then
      match rest with
      | c1 :: c2 :: rest2 => isContByte c1 && isContByte c2 && utf8Valid rest2
      | _ => false
    else if b = 237 then
      match rest with
      | c1 :: c2 :: rest2 => (128 ≤ c1 && c1 ≤ 159) && isContByte c2 && utf8Valid rest2
      | _ => false
    else if b = 240 then
      match rest with
      | c1 :: c2 :: c3 :: rest2 =>
        (144 ≤ c1 && c1 ≤ 191) && isContByte c2 && isContByte c3 && utf8Valid rest2
      | _ => false
    else if 241 ≤ b && b ≤ 243 then
      match rest with
      | c1 :: c2 :: c3 :: rest2 =>
        isContByte c1 && isContByte c2 && isContByte c3 && utf8Valid rest2
      | _ => false
    else if b = 244 then
      match rest with
      | c1 :: c2 :: c3 :: rest2 =>
        (128 ≤ c1 && c1 ≤ 143) && isContByte c2 && isContByte c3 && utf8Valid rest2
      | _ => false
    else false

/-- Marshal of an untagged Go string (Go `makeField` for `reflect.String`
with no string type in the field parameters): PrintableString when every
byte is in the restricted printable set, otherwise UTF8String provided the
string is valid UTF-8, otherwise an error.  Returns identifier octet and
content octets. -/
def marshalGoStr (s : List Nat) : Option (Nat × List Nat) :=
  if s.all printableMarshalByte then some (19, s)
  else if utf8Valid s then some (12, s)
  else none

/-- Marshal of a string field carrying the `asn1:"utf8"` tag: always a
UTF8String, content written without validation (Go `makeUTF8String`). -/
def encUTF8 (s : List Nat) : List Nat := encTLV 12 s

/-- Encodability of one role record: the role object identifier passes Go's
Marshal validity check and the role token is marshallable as a Go string. -/
def encodeRoleOK (p : List Nat × List Nat) : Prop :=
  oidValidB p.1 = true ∧ (marshalGoStr p.2).isSome = true

instance (p : List Nat × List Nat) : Decidable (encodeRoleOK p) :=
  inferInstanceAs (Decidable (_ ∧ _))

/-! ## DER element decoding used by `asn1.Unmarshal` on the codec structures -/

/-- Parse an OBJECT IDENTIFIER field: identifier octet 0x06, content decoded
by `decodeOIDContent`. -/
def parseOIDField (data : List Nat) : Option (List Nat × List Nat) :=
  (parseTLV data).bind fun p =>
    if p.1 = 6 then (decodeOIDContent p.2.1).map fun o => (o, p.2.2) else none

/-- Parse an untagged Go string field.  `getUniversalType` expects
PrintableString, and `parseField` also accepts the other universal string
tags on the wire; only PrintableString and UTF8String can be produced by this
repository's encoders, and only those two are modelled (IA5String,
T61String, GeneralString, NumericString and BMPString never occur in data
built by this codec). -/
def parseStringField (data : List Nat) : Option (List Nat × List Nat) :=
  (parseTLV data).bind fun p =>
    if p.1 = 19 then
      if p.2.1.all printableParseByte then some (p.2.1, p.2.2) else none
    else if p.1 = 12 then
      if utf8Valid p.2.1 then some (p.2.1, p.2.2) else none
    else none

namespace Qc

/-! ## Package `qcstatements` (src/qcstatements/qcstatements.go) -/

/-- CompetentAuthority under PSD2 (Name and NCA identifier, as Go strings). -/
structure CompetentAuthority where
  Name : List Nat
  ID : List Nat
deriving DecidableEq, Repr

/-- The fixed country-code table `caMap` of qcstatements.go. -/
def caMap : List (List Nat × CompetentAuthority) :=
  [ (str "AT", ⟨str "Austria Financial Market Authority", str "AT-FMA"⟩),
    (str "BE", ⟨str "National Bank of Belgium", str "BE-NBB"⟩),
    (str "BG", ⟨str "Bulgarian National Bank", str "BG-BNB"⟩),
    (str "HR", ⟨str "Croatian National Bank", str "HR-CNB"⟩),
    (str "CY", ⟨str "Central Bank of Cyprus", str "CY-CBC"⟩),
    (str "CZ", ⟨str "Czech National Bank", str "CZ-CNB"⟩),
    (str "DK", ⟨str "Danish Financial Supervisory Authority", str "DK-DFSA"⟩),
    (str "EE", ⟨str "Estonia Financial Supervisory Authority", str "EE-FI"⟩),
    (str "FI", ⟨str "Finnish Financial Supervisory Authority", str "FI-FINFSA"⟩),
    (str "FR", ⟨str "Prudential Supervisory and Resolution Authority", str "FR-ACPR"⟩),
    (str "DE", ⟨str "Federal Financial Supervisory Authority", str "DE-BAFIN"⟩),
    (str "GR", ⟨str "Bank of Greece", str "GR-BOG"⟩),
    (str "HU", ⟨str "Central Bank of Hungary", str "HU-CBH"⟩),
    (str "IS", ⟨str "Financial Supervisory Authority", str "IS-FME"⟩),
    (str "IE", ⟨str "Central Bank of Ireland", str "IE-CBI"⟩),
    (str "IT", ⟨str "Bank of Italy", str "IT-BI"⟩),
    (str "LI", ⟨str "Financial Market Authority Liechtenstein", str "LI-FMA"⟩),
    (str "LV", ⟨str "Financial and Capital Markets Commission", str "LV-FCMC"⟩),
    (str "LT", ⟨str "Bank of Lithuania", str "LT-BL"⟩),
    (str "LU", ⟨str "Commission for the Supervision of Financial Sector", str "LU-CSSF"⟩),
    (str "NO", ⟨str "The Financial Supervisory Authority of Norway", str "NO-FSA"⟩),
    (str "MT", ⟨str "Malta Financial Services Authority", str "MT-MFSA"⟩),
    (str "NL", ⟨str "The Netherlands Bank", str "NL-DNB"⟩),
    (str "PL", ⟨str "Polish Financial Supervision Authority", str "PL-PFSA"⟩),
    (str "PT", ⟨str "Bank of Portugal", str "PT-BP"⟩),
    (str "RO", ⟨str "National bank of Romania", str "RO-NBR"⟩),
    (str "SK", ⟨str "National Bank of Slovakia", str "SK-NBS"⟩),
    (str "SI", ⟨str "Bank of Slovenia", str "SI-BS"⟩),
    (str "ES", ⟨str "Bank of Spain", str "ES-BE"⟩),
    (str "SE", ⟨str "Swedish Financial Supervision Authority", str "SE-FINA"⟩),
    (str "GB", ⟨str "Financial Conduct Authority", str "GB-FCA"⟩) ]

/-- `CompetentAuthorityForCountryCode`: map lookup, error for unknown codes. -/
def CompetentAuthorityForCountryCode (code : List Nat) : Option CompetentAuthority :=
  (caMap.find? fun e => e.1 = code).map (·.2)

/-- The four standard PSP role tokens. -/
def RoleAccountServicing : List Nat := str "PSP_AS"
def RolePaymentInitiation : List Nat := str "PSP_PI"
def RoleAccountInformation : List Nat := str "PSP_AI"
def RolePaymentInstruments : List Nat := str "PSP_IC"

/-- The `roleMap` table of qcstatements.go. -/
def roleMap (r : List Nat) : Option Nat :=
  if r = RoleAccountServicing then some 1
  else if r = RolePaymentInitiation then some 2
  else if r = RoleAccountInformation then some 3
  else if r = RolePaymentInstruments then some 4
  else none

/-- ASN.1 object identifier for QSeal certificates. -/
def QSEALType : List Nat := [0, 4, 0, 1862, 1, 6, 2]
/-- ASN.1 object identifier for QWA certificates. -/
def QWACType : List Nat := [0, 4, 0, 1862, 1, 6, 3]

/-- The role object identifier with the given final arc. -/
def roleOID (code : Nat) : List Nat := [0, 4, 0, 19495, 1, code]

/-- The role-resolution loop of `Serialize`: each role must resolve through
`roleMap` and is paired with its role object identifier; the whole call fails
at the first unknown role. -/
def rolePairs : List (List Nat) → Option (List (List Nat × List Nat))
  | [] => some []
  | r :: rs =>
    match roleMap r with
    | none => none
    | some c => (rolePairs rs).map ((roleOID c, r) :: ·)

/-- Marshal of one `role` record: SEQUENCE of the role object identifier and
the role token as an untagged Go string. -/
def encodeRole (oid : List Nat) (r : List Nat) : Option (List Nat) :=
  (encodeOID oid).bind fun o =>
    (marshalGoStr r).map fun p => encTLV 48 (o ++ encTLV p.1 p.2)

/-- Marshal of the `root` structure of qcstatements.go for a given list of
(role object identifier, role token) records: the exact nesting produced by
`asn1.Marshal` on `root { qcType { OID, Detail }, qcStatement { OID,
rolesInfo { Roles, CAName, CAID } } }`. -/
def encodeRoot (pairs : List (List Nat × List Nat)) (ca : CompetentAuthority)
    (t : List Nat) : Option (List Nat) :=
  (mapOpt (fun p => encodeRole p.1 p.2) pairs).bind fun rs =>
    (encodeOID t).map fun tEnc =>
      encTLV 48
        (encTLV 48 (encTLV 6 (encodeOIDContent [0, 4, 0, 1862, 1, 6]) ++ encTLV 48 tEnc) ++
         encTLV 48 (encTLV 6 (encodeOIDContent [0, 4, 0, 19495, 2]) ++
           encTLV 48 (encTLV 48 rs.flatten ++ encUTF8 ca.Name ++ encUTF8 ca.ID)))

/-- `Serialize` of qcstatements.go: resolve every role through `roleMap`
(failing on the first unknown role), then marshal the `root` structure. -/
def Serialize (roles : List (List Nat)) (ca : CompetentAuthority)
    (t : List Nat) : Option (List Nat) :=
  (rolePairs roles).bind fun ps => encodeRoot ps ca t

/-- Parse one `role` record from the content octets of its SEQUENCE element:
an OBJECT IDENTIFIER field then a string field; extra bytes at the end of the
SEQUENCE are allowed (Go `parseField` permits trailing bytes in a SEQUENCE
parsed into a struct). -/
def parseRole (c : List Nat) : Option (List Nat × List Nat) :=
  (parseOIDField c).bind fun p =>
    (parseStringField p.2).map fun q => (p.1, q.1)

/-- Parse the content of the `Roles` SEQUENCE OF as `role` records (Go
`parseSequenceOf` with element type `role`: every element must be a
SEQUENCE). -/
def parseSeqOfRolesF : Nat → List Nat → Option (List (List Nat × List Nat))
  | 0, [] => some []
  | 0, _ :: _ => none
  | _ + 1, [] => some []
  | f + 1, b :: rest =>
    (parseTLV (b :: rest)).bind fun p =>
      if p.1 = 48 then
        (parseRole p.2.1).bind fun r =>
          (parseSeqOfRolesF f p.2.2).map (r :: ·)
      else none

def parseSeqOfRoles (data : List Nat) : Option (List (List Nat × List Nat)) :=
  parseSeqOfRolesF data.length data

/-- Parse the content of the `Detail` SEQUENCE OF as OBJECT IDENTIFIERs. -/
def parseSeqOfOIDsF : Nat → List Nat → Option (List (List Nat))
  | 0, [] => some []
  | 0, _ :: _ => none
  | _ + 1, [] => some []
  | f + 1, b :: rest =>
    (parseTLV (b :: rest)).bind fun p =>
      if p.1 = 6 then
        (decodeOIDContent p.2.1).bind fun o =>
          (parseSeqOfOIDsF f p.2.2).map (o :: ·)
      else none

def parseSeqOfOIDs (data : List Nat) : Option (List (List Nat)) :=
  parseSeqOfOIDsF data.length data

/-- The decoded `root` structure. -/
structure QCRoot where
  typeOID : List Nat
  detail : List (List Nat)
  stmtOID : List Nat
  roles : List (List Nat × List Nat)
  caName : List Nat
  caID : List Nat
deriving DecidableEq, Repr

/-- `asn1.Unmarshal` of the `root` structure of qcstatements.go.  Bytes after
the outer SEQUENCE are returned as `rest` by Go and ignored by `Extract`;
extra bytes at the end of any SEQUENCE parsed into a struct are allowed. -/
def unmarshalRoot (data : List Nat) : Option QCRoot :=
  (parseTLV data).bind fun r0 =>
    if r0.1 = 48 then
      (parseTLV r0.2.1).bind fun r1 =>
        if r1.1 = 48 then
          (parseOIDField r1.2.1).bind fun pTypeOID =>
            (parseTLV pTypeOID.2).bind fun r2 =>
              if r2.1 = 48 then
                (parseSeqOfOIDs r2.2.1).bind fun detail =>
                  (parseTLV r1.2.2).bind fun r3 =>
                    if r3.1 = 48 then
                      (parseOIDField r3.2.1).bind fun pStmtOID =>
                        (parseTLV pStmtOID.2).bind fun r4 =>
                          if r4.1 = 48 then
                            (parseTLV r4.2.1).bind fun r5 =>
                              if r5.1 = 48 then
                                (parseSeqOfRoles r5.2.1).bind fun roles =>
                                  (parseStringField r5.2.2).bind fun pName =>
                                    (parseStringField pName.2).map fun pID =>
                                      ⟨pTypeOID.1, detail, pStmtOID.1, roles, pName.1, pID.1⟩
                              else none
                          else none
                    else none
              else none
        else none
    else none

/-- `Extract` of qcstatements.go: unmarshal the `root` structure and return
the role-token strings (in encoded order), the CA name and the CA ID. -/
def Extract (data : List Nat) : Option (List (List Nat) × List Nat × List Nat) :=
  (unmarshalRoot data).map fun rt => (rt.roles.map Prod.snd, rt.caName, rt.caID)

end Qc

namespace EidasLegacy

/-! ## Package `eidas` legacy codec (src/eidas.go)

The historical revision kept at the repository root encodes the role records
as a flat list of `asn1.RawValue`s inside an extra wrapper structure
(`RolesInfo { Roles { Roles []asn1.RawValue }, CAName, CAID }`), hard-codes
the QWAC detail object identifier, and looks each role up in `roleMap`
without checking membership, so an unknown token yields the Go zero value 0
as the final arc of the role object identifier. -/

/-- `roleMap` of src/eidas.go with Go map semantics: a missing key reads as
the zero value 0. -/
def roleMapD (r : List Nat) : Nat := (Qc.roleMap r).getD 0

/-- `Serialize` of src/eidas.go.  Marshal of the two raw values per role:
the role object identifier (final arc from `roleMapD`) and the role token as
an untagged Go string; no membership check is performed. -/
def Serialize (roles : List (List Nat)) (caName caID : List Nat) : Option (List Nat) :=
  (mapOpt (fun r =>
      (encodeOID (Qc.roleOID (roleMapD r))).bind fun o =>
        (marshalGoStr r).map fun p => o ++ encTLV p.1 p.2) roles).map fun raws =>
    encTLV 48
      (encTLV 48 (encTLV 6 (encodeOIDContent [0, 4, 0, 1862, 1, 6]) ++
         encTLV 48 (encTLV 6 (encodeOIDContent [0, 4, 0, 1862, 1, 6, 3]))) ++
       encTLV 48 (encTLV 6 (encodeOIDContent [0, 4, 0, 19495, 2]) ++
         encTLV 48 (encTLV 48 (encTLV 48 raws.flatten) ++ encUTF8 caName ++ encUTF8 caID)))

end EidasLegacy

namespace Sha1

/-! ## SHA-1 (Go crypto/sha1, as used by `subjectKeyIdentifier`)

Machine words are `Nat` values kept below `2^32` by explicit reductions. -/

def w32 (n : Nat) : Nat := n % 4294967296

/-- 32-bit rotate left (Go `bits.RotateLeft32`), for inputs below `2^32`. -/
def rotl32 (s n : Nat) : Nat := w32 (n * 2 ^ s + n / 2 ^ (32 - s))

def notW (b : Nat) : Nat := b ^^^ 4294967295

/-- Big-endian bytes of a 32-bit word. -/
def be32 (n : Nat) : List Nat :=
  [n / 16777216 % 256, n / 65536 % 256, n / 256 % 256, n % 256]

/-- Big-endian bytes of a 64-bit word. -/
def be64 (n : Nat) : List Nat :=
  [n / 2 ^ 56 % 256, n / 2 ^ 48 % 256, n / 2 ^ 40 % 256, n / 2 ^ 32 % 256,
   n / 16777216 % 256, n / 65536 % 256, n / 256 % 256, n % 256]

/-- SHA-1 padding: a 0x80 byte, zero bytes to 56 mod 64, then the bit length
as a big-endian 64-bit word. -/
def sha1Pad (msg : List Nat) : List Nat :=
  msg ++ 128 :: List.replicate ((64 - (msg.length + 9) % 64) % 64) 0 ++ be64 (8 * msg.length)

def chunks64F : Nat → List Nat → List (List Nat)
  | 0, _ => []
  | f + 1, l => if l.isEmpty then [] else l.take 64 :: chunks64F f (l.drop 64)

/-- Split a byte string into 64-byte chunks. -/
def chunks64 (l : List Nat) : List (List Nat) := chunks64F l.length l

/-- The 32-bit word at word index `i` of a chunk (big-endian). -/
def word32At (c : List Nat) (i : Nat) : Nat :=
  c.getD (4 * i) 0 * 16777216 + c.getD (4 * i + 1) 0 * 65536 +
    c.getD (4 * i + 2) 0 * 256 + c.getD (4 * i + 3) 0

/-- The 80-word message schedule of one chunk. -/
def sha1W (c : List Nat) : List Nat :=
  (List.range 64).foldl
    (fun ws i =>
      ws ++ [rotl32 1 (ws.getD (i + 13) 0 ^^^ ws.getD (i + 8) 0 ^^^ ws.getD (i + 2) 0 ^^^ ws.getD i 0)])
    ((List.range 16).map (word32At c))

def sha1FK (i b c d : Nat) : Nat × Nat :=
  if i < 20 then ((b &&& c) ||| (notW b &&& d), 1518500249)
  else if i < 40 then (b ^^^ c ^^^ d, 1859775393)
  else if i < 60 then ((b &&& c) ||| (b &&& d) ||| (c &&& d), 2400959708)
  else (b ^^^ c ^^^ d, 3395469782)

def sha1Step (ws : List Nat) (st : Nat × Nat × Nat × Nat × Nat) (i : Nat) :
    Nat × Nat × Nat × Nat × Nat :=
  match st with
  | (a, b, c, d, e) =>
    let fk := sha1FK i b c d
    (w32 (rotl32 5 a + fk.1 + e + fk.2 + ws.getD i 0), a, rotl32 30 b, c, d)

structure Digest where
  h0 : Nat
  h1 : Nat
  h2 : Nat
  h3 : Nat
  h4 : Nat
deriving Repr

def sha1InitState : Digest := ⟨1732584193, 4023233417, 2562383102, 271733878, 3285377520⟩

def sha1Compress (st : Digest) (chunk : List Nat) : Digest :=
  let ws := sha1W chunk
  let fin := (List.range 80).foldl (sha1Step ws) (st.h0, st.h1, st.h2, st.h3, st.h4)
  ⟨w32 (st.h0 + fin.1), w32 (st.h1 + fin.2.1), w32 (st.h2 + fin.2.2.1),
   w32 (st.h3 + fin.2.2.2.1), w32 (st.h4 + fin.2.2.2.2)⟩

def digestBytes (d : Digest) : List Nat :=
  be32 d.h0 ++ be32 d.h1 ++ be32 d.h2 ++ be32 d.h3 ++ be32 d.h4

/-- SHA-1 digest of a byte string. -/
def sha1 (msg : List Nat) : List Nat :=
  digestBytes ((chunks64 (sha1Pad msg)).foldl sha1Compress sha1InitState)

end Sha1

namespace Csr

/-! ## Package `eidas` current revision (src/csr.go) -/

/-- A pkix.Extension: identifier, criticality, raw DER value. -/
structure Extension where
  Id : List Nat
  Critical : Bool
  Value : List Nat
deriving DecidableEq, Repr

/-- Go x509.KeyUsage bit values used by this repository. -/
def KeyUsageDigitalSignature : Nat := 1
def KeyUsageContentCommitment : Nat := 2
def KeyUsageDecipherOnly : Nat := 256

/-- `keyUsageForType`: digital signature for QWAC; digital signature and
content commitment for QSEAL; error otherwise. -/
def keyUsageForType (t : List Nat) : Option (List Nat) :=
  if t = Qc.QWACType then some [KeyUsageDigitalSignature]
  else if t = Qc.QSEALType then some [KeyUsageDigitalSignature, KeyUsageContentCommitment]
  else none

/-- `KeyUsageExtension`: each usage `u` contributes bit `1 <<< (8 - u)` of a
uint16 accumulator (Go shifts of a `uint16` by an amount of 16 or more give
0, which the `u ≤ 8` guard reproduces for the wrapped difference `8 - u`);
the accumulator is laid out in two little-endian bytes and marshalled as a
BIT STRING whose `BitLength` is `int(x509.KeyUsageDecipherOnly)`, so the
unused-bits octet is `(8 - BitLength % 8) % 8`. -/
def KeyUsageExtension (usages : List Nat) : Extension :=
  let x := usages.foldl (fun a u => a ||| (if u ≤ 8 then 2 ^ (8 - u) % 65536 else 0)) 0
  let b := [x % 256, x / 256 % 256]
  { Id := [2, 5, 29, 15], Critical := true,
    Value := encTLV 3 ((8 - KeyUsageDecipherOnly % 8) % 8 :: b) }

def TLSWWWServerAuthUsage : List Nat := [1, 3, 6, 1, 5, 5, 7, 3, 1]
def TLSWWWClientAuthUsage : List Nat := [1, 3, 6, 1, 5, 5, 7, 3, 2]

/-- `extendedKeyUsageForType`: TLS server and client authentication for QWAC;
the empty list for QSEAL; error otherwise. -/
def extendedKeyUsageForType (t : List Nat) : Option (List (List Nat)) :=
  if t = Qc.QWACType then some [TLSWWWServerAuthUsage, TLSWWWClientAuthUsage]
  else if t = Qc.QSEALType then some []
  else none

/-- `extendedKeyUsageExtension`: value is the marshalled SEQUENCE of purpose
object identifiers (the marshal error is discarded in the source; every
identifier passed by this repository is valid). -/
def extendedKeyUsageExtension (usages : List (List Nat)) : Extension :=
  { Id := [2, 5, 29, 37], Critical := false,
    Value := encTLV 48 ((usages.map fun o => encTLV 6 (encodeOIDContent o)).flatten) }

/-- An rsa.PublicKey: modulus and public exponent (both positive in any key
produced by Go's generator). -/
structure RSAPublicKey where
  N : Nat
  E : Nat
deriving DecidableEq, Repr

/-- DER INTEGER content octets of a non-negative integer: minimal big-endian
bytes with a leading zero octet when the top bit is set. -/
def derIntContent (n : Nat) : List Nat :=
  if n = 0 then [0]
  else
    let ds := base256 n
    if 128 ≤ ds.headD 0 then 0 :: ds else ds

/-- `x509.MarshalPKCS1PublicKey`: DER SEQUENCE of the INTEGERs N and E. -/
def MarshalPKCS1PublicKey (k : RSAPublicKey) : List Nat :=
  encTLV 48 (encTLV 2 (derIntContent k.N) ++ encTLV 2 (derIntContent k.E))

/-- `subjectKeyIdentifier`: the SHA-1 digest of the PKCS#1 DER encoding of
the public key, marshalled as an OCTET STRING; identifier 2.5.29.14, not
critical. -/
def subjectKeyIdentifier (key : RSAPublicKey) : Extension :=
  { Id := [2, 5, 29, 14], Critical := false,
    Value := encTLV 4 (Sha1.sha1 (MarshalPKCS1PublicKey key)) }

def QCStatementsExt : List Nat := [1, 3, 6, 1, 5, 5, 7, 1, 3]

/-- `qcStatementsExtension`: wraps the codec output verbatim. -/
def qcStatementsExtension (data : List Nat) : Extension :=
  { Id := QCStatementsExt, Critical := false, Value := data }

/-- The extension-assembly steps of `GenerateCSR` (src/csr.go lines 34-49):
key usage, extended key usage only when its list is non-empty, subject key
identifier, qualified statement, as a function of the certificate flavor,
the serialized qualified statement and the generated key. -/
def csrExtensions (t : List Nat) (qc : List Nat) (key : RSAPublicKey) :
    Option (List Extension) :=
  (keyUsageForType t).bind fun keyUsage =>
    (extendedKeyUsageForType t).bind fun extendedKeyUsage =>
      let extensions := [KeyUsageExtension keyUsage]
      let extensions :=
        if extendedKeyUsage.length ≠ 0 then
          extensions ++ [extendedKeyUsageExtension extendedKeyUsage]
        else extensions
      some (extensions ++ [subjectKeyIdentifier key, qcStatementsExtension qc])

def oidCountryCode : List Nat := [2, 5, 4, 6]
def oidOrganizationName : List Nat := [2, 5, 4, 10]
def oidOrganizationID : List Nat := [2, 5, 4, 97]
def oidCommonName : List Nat := [2, 5, 4, 3]

/-- Marshal of one AttributeTypeAndValue wrapped in its single-element
RelativeDistinguishedNameSET (Go marshals the slice type whose name ends in
SET with the SET identifier 0x31; the string value is an untagged Go
string). -/
def atvSetElem (oid : List Nat) (v : List Nat) : Option (List Nat) :=
  (encodeOID oid).bind fun o =>
    (marshalGoStr v).map fun p => encTLV 49 (encTLV 48 (o ++ encTLV p.1 p.2))

/-- `buildSubject`: `pkix.Name.ToRDNSequence` of a name whose only content
is the four `ExtraNames` attributes, in the order country, organization
name, organization identifier, common name, marshalled as a DER SEQUENCE of
single-attribute SETs. -/
def buildSubject (countryCode orgName commonName orgID : List Nat) : Option (List Nat) :=
  ((mapOpt (fun a => atvSetElem a.1 a.2)
      [(oidCountryCode, countryCode), (oidOrganizationName, orgName),
       (oidOrganizationID, orgID), (oidCommonName, commonName)]).map
    fun es => encTLV 48 es.flatten)

end Csr

namespace Check

/-! ## Verification instrumentation

Structural DER readers used only to state and check properties of encoder
output (decode-and-compare, as the specification's test description asks);
they are not part of the repository. -/

/-- Read one AttributeTypeAndValue: an object identifier then a string. -/
def readATV (c : List Nat) : Option (List Nat × List Nat) :=
  (parseOIDField c).bind fun p =>
    (parseStringField p.2).bind fun q =>
      if q.2 = [] then some (p.1, q.1) else none

/-- Read the SET elements of a name sequence; each SET must hold exactly one
AttributeTypeAndValue. -/
def readRDNsF : Nat → List Nat → Option (List (List Nat × List Nat))
  | 0, [] => some []
  | 0, _ :: _ => none
  | _ + 1, [] => some []
  | f + 1, b :: rest =>
    (parseTLV (b :: rest)).bind fun p =>
      if p.1 = 49 then
        (parseTLV p.2.1).bind fun q =>
          if q.1 = 48 ∧ q.2.2 = [] then
            (readATV q.2.1).bind fun a =>
              (readRDNsF f p.2.2).map (a :: ·)
          else none
      else none

/-- Decode a DER name: a SEQUENCE of single-attribute SETs, returning the
attribute type and value pairs in encoded order. -/
def readName (data : List Nat) : Option (List (List Nat × List Nat)) :=
  (parseTLV data).bind fun p =>
    if p.1 = 48 ∧ p.2.2 = [] then readRDNsF p.2.1.length p.2.1 else none

end Check

/-- First example payload of specification section 6 (hex decoded). -/
def hexVec1 : List Nat :=
  [48, 108, 48, 19, 6, 6, 4, 0, 142, 70, 1, 6, 48, 9, 6, 7, 4, 0, 142, 70, 1, 6, 3,
   48, 85, 6, 6, 4, 0, 129, 152, 39, 2, 48, 75, 48, 36, 48, 34, 6, 7, 4, 0, 129,
   152, 39, 1, 2, 12, 6, 80, 83, 80, 95, 80, 73, 6, 7, 4, 0, 129, 152, 39, 1, 3,
   12, 6, 80, 83, 80, 95, 65, 73, 12, 27, 70, 105, 110, 97, 110, 99, 105, 97, 108,
   32, 67, 111, 110, 100, 117, 99, 116, 32, 65, 117, 116, 104, 111, 114, 105, 116,
   121, 12, 6, 71, 66, 45, 70, 67, 65]

/-- Second example payload of specification section 6 (hex decoded). -/
def hexVec2 : List Nat :=
  [48, 108, 48, 19, 6, 6, 4, 0, 142, 70, 1, 6, 48, 9, 6, 7, 4, 0, 142, 70, 1, 6, 3,
   48, 85, 6, 6, 4, 0, 129, 152, 39, 2, 48, 75, 48, 36, 48, 34, 6, 7, 4, 0, 129,
   152, 39, 1, 1, 12, 6, 80, 83, 80, 95, 65, 83, 6, 7, 4, 0, 129, 152, 39, 1, 4,
   12, 6, 80, 83, 80, 95, 73, 67, 12, 27, 70, 105, 110, 97, 110, 99, 105, 97, 108,
   32, 67, 111, 110, 100, 117, 99, 116, 32, 65, 117, 116, 104, 111, 114, 105, 116,
   121, 12, 6, 71, 66, 45, 70, 67, 65]

/-! ## Lemmas about the DER primitives -/

theorem take_len_append {α : Type} (l r : List α) : (l ++ r).take l.length = l := by
  induction l with
  | nil => simp
  | cons a l ih => simp [ih]

theorem drop_len_append {α : Type} (l r : List α) : (l ++ r).drop l.length = r := by
  induction l with
  | nil => simp
  | cons a l ih => simp [ih]

theorem base256Val_append_last (l : List Nat) (y : Nat) :
    base256Val (l ++ [y]) = base256Val l * 256 + y := by
  simp [base256Val, List.foldl_append]

theorem base256F_spec :
    ∀ f n, n ≤ f →
      base256Val (base256F f n) = n ∧ base256F f n ≠ [] ∧
        (0 < n → base256F f n ≠ [] ∧ (base256F f n).headD 0 ≠ 0) := by
  intro f
  induction f with
  | zero =>
    intro n hn
    interval_cases n
    simp [base256F, base256Val]
  | succ f ih =>
    intro n hn
    by_cases h : n < 256
    · refine ⟨?_, ?_, ?_⟩
      · simp [base256F, h, base256Val]
      · simp [base256F, h]
      · simp [base256F, h]
        omega
    · have hdiv : n / 256 ≤ f := by
        have : n / 256 < n := Nat.div_lt_self (by omega) (by omega)
        omega
      obtain ⟨hval, hne, hhead⟩ := ih (n / 256) hdiv
      have hpos : 0 < n / 256 := Nat.div_pos (by omega) (by omega)
      refine ⟨?_, ?_, ?_⟩
      · simp only [base256F, if_neg h]
        rw [base256Val_append_last, hval]
        omega
      · simp [base256F, if_neg h]
      · intro _
        constructor
        · simp [base256F, if_neg h]
        · simp only [base256F, if_neg h]
          obtain ⟨hne2, hh⟩ := hhead hpos
          rcases hd : base256F f (n / 256) with _ | ⟨a, tl⟩
          · exact absurd hd hne2
          · rw [hd] at hh
            simpa using hh

theorem base256_val (n : Nat) : base256Val (base256 n) = n :=
  (base256F_spec n n le_rfl).1

theorem base256_ne_nil (n : Nat) : base256 n ≠ [] :=
  (base256F_spec n n le_rfl).2.1

theorem base256_headD_ne_zero (n : Nat) (h : 0 < n) : (base256 n).headD 0 ≠ 0 :=
  ((base256F_spec n n le_rfl).2.2 h).2

theorem lenDecode_lenEncode (n : Nat) (rest : List Nat) :
    lenDecode (lenEncode n ++ rest) = some (n, rest) := by
  by_cases h : n < 128
  · simp [lenEncode, h, lenDecode]
  · rcases hd : base256 n with _ | ⟨a, tl⟩
    · exact absurd hd (base256_ne_nil n)
    · have hane : a ≠ 0 := by
        have := base256_headD_ne_zero n (by omega)
        rw [hd] at this
        simpa using this
      have hval : base256Val (a :: tl) = n := by rw [← hd]; exact base256_val n
      have hlen : (a :: tl).length = tl.length + 1 := by simp
      simp only [lenEncode, if_neg h, hd]
      simp only [lenDecode, List.cons_append]
      have h128 : ¬ (128 + (a :: tl).length < 128) := by simp
      rw [if_neg h128]
      have hnb : 128 + (a :: tl).length - 128 = tl.length + 1 := by simp
      rw [hnb]
      have h0 : ¬ (tl.length + 1 = 0) := by omega
      rw [if_neg h0]
      have hle : tl.length + 1 ≤ (a :: (tl ++ rest)).length := by simp
      rw [if_pos hle]
      have htake : (a :: (tl ++ rest)).take (tl.length + 1) = a :: tl := by
        have h2 := take_len_append (a :: tl) rest
        simp only [List.cons_append, List.length_cons] at h2
        exact h2
      have hdrop : (a :: (tl ++ rest)).drop (tl.length + 1) = rest := by
        have h2 := drop_len_append (a :: tl) rest
        simp only [List.cons_append, List.length_cons] at h2
        exact h2
      rw [htake, hdrop]
      have hh : ¬ ((a :: tl).head? = some 0) := by simpa using hane
      rw [if_neg hh, hval]
      rw [if_neg (by omega)]

theorem parseTLV_encTLV (t : Nat) (c rest : List Nat) :
    parseTLV (encTLV t c ++ rest) = some (t, c, rest) := by
  have heq : encTLV t c ++ rest = t :: (lenEncode c.length ++ (c ++ rest)) := by
    simp [encTLV]
  rw [heq]
  simp only [parseTLV, lenDecode_lenEncode, Option.some_bind]
  rw [if_pos (by simp)]
  rw [take_len_append, drop_len_append]

theorem parseTLV_encTLV_nil (t : Nat) (c : List Nat) :
    parseTLV (encTLV t c) = some (t, c, []) := by
  have := parseTLV_encTLV t c []
  simpa using this

/-! ## Lemmas about base-128 object-identifier arcs -/

theorem base128DigitsF_spec :
    ∀ f n, n ≤ f →
      (base128DigitsF f n).foldl (fun a d => a * 128 + d) 0 = n ∧
        (∀ d ∈ base128DigitsF f n, d < 128) ∧
        (0 < n → base128DigitsF f n ≠ [] ∧ (base128DigitsF f n).headD 0 ≠ 0) := by
  intro f
  induction f with
  | zero =>
    intro n hn
    interval_cases n
    simp [base128DigitsF]
  | succ f ih =>
    intro n hn
    by_cases h : n = 0
    · subst h
      simp [base128DigitsF]
    · have hdiv : n / 128 ≤ f := by
        have : n / 128 < n := Nat.div_lt_self (by omega) (by omega)
        omega
      obtain ⟨hval, hbound, hhead⟩ := ih (n / 128) hdiv
      refine ⟨?_, ?_, ?_⟩
      · simp only [base128DigitsF, if_neg h]
        rw [List.foldl_append, hval]
        simp
        omega
      · intro d hd
        simp only [base128DigitsF, if_neg h] at hd
        rcases List.mem_append.1 hd with h1 | h1
        · exact hbound d h1
        · simp at h1
          omega
      · intro _
        constructor
        · simp [base128DigitsF, if_neg h]
        · simp only [base128DigitsF, if_neg h]
          by_cases hq : 0 < n / 128
          · obtain ⟨hne2, hh⟩ := hhead hq
            rcases hdg : base128DigitsF f (n / 128) with _ | ⟨a, tl⟩
            · exact absurd hdg hne2
            · rw [hdg] at hh
              simpa using hh
          · have hz : n / 128 = 0 := by omega
            have hmod : n % 128 = n := by
              have := Nat.mod_add_div n 128
              omega
            rcases hdg : base128DigitsF f (n / 128) with _ | ⟨a, tl⟩
            · simp [hdg, hmod]
              omega
            · rw [hz] at hdg
              cases f <;> simp [base128DigitsF] at hdg

theorem base128Digits_val (n : Nat) :
    (base128Digits n).foldl (fun a d => a * 128 + d) 0 = n :=
  (base128DigitsF_spec n n le_rfl).1

theorem base128Digits_bound (n : Nat) : ∀ d ∈ base128Digits n, d < 128 :=
  (base128DigitsF_spec n n le_rfl).2.1

theorem base128Digits_head (n : Nat) (h : 0 < n) :
    base128Digits n ≠ [] ∧ (base128Digits n).headD 0 ≠ 0 :=
  (base128DigitsF_spec n n le_rfl).2.2 h

theorem base128Parse_digits :
    ∀ (ds : List Nat) (acc last : Nat) (rest : List Nat),
      (∀ d ∈ ds, d < 128) → last < 128 →
        base128Parse acc ((ds.map (· + 128)) ++ last :: rest) =
          some ((ds.foldl (fun a d => a * 128 + d) acc) * 128 + last, rest) := by
  intro ds
  induction ds with
  | nil =>
    intro acc last rest _ hlast
    simp [base128Parse, Nat.mod_eq_of_lt hlast, if_pos hlast]
  | cons d ds ih =>
    intro acc last rest hds hlast
    have hd : d < 128 := hds d (by simp)
    have hmod : (d + 128) % 128 = d := by omega
    have hnl : ¬ (d + 128 < 128) := by omega
    have step : base128Parse acc (((d :: ds).map (· + 128)) ++ last :: rest) =
        base128Parse (acc * 128 + d) ((ds.map (· + 128)) ++ last :: rest) := by
      simp [base128Parse, hmod, hnl]
    rw [step, ih (acc * 128 + d) last rest (fun x hx => hds x (by simp [hx])) hlast]
    simp

theorem parseSubident_base128Enc (n : Nat) (rest : List Nat) :
    parseSubident (base128Enc n ++ rest) = some (n, rest) := by
  have hlast : n % 128 < 128 := Nat.mod_lt _ (by omega)
  by_cases h : n < 128
  · have hz : n / 128 = 0 := Nat.div_eq_of_lt h
    have hdg : base128Digits (n / 128) = [] := by
      rw [hz]
      rfl
    have hmod : n % 128 = n := Nat.mod_eq_of_lt h
    simp only [base128Enc, hdg, List.map_nil, List.nil_append, hmod, List.cons_append]
    simp [parseSubident, base128Parse, hmod, if_pos h, if_neg (show ¬ n = 128 by omega)]
  · have hq : 0 < n / 128 := Nat.div_pos (by omega) (by omega)
    obtain ⟨hne, hh⟩ := base128Digits_head (n / 128) hq
    have hbound := base128Digits_bound (n / 128)
    have hval := base128Digits_val (n / 128)
    rcases hdg : base128Digits (n / 128) with _ | ⟨a, tl⟩
    · exact absurd hdg hne
    · rw [hdg] at hh hbound hval
      have hha : a ≠ 0 := by simpa using hh
      have hba : a < 128 := hbound a (by simp)
      have hform : base128Enc n ++ rest =
          (a + 128) :: ((tl.map (· + 128)) ++ n % 128 :: rest) := by
        simp [base128Enc, hdg, List.append_assoc]
      rw [hform]
      have hne128 : ¬ (a + 128 = 128) := by omega
      simp only [parseSubident, if_neg hne128]
      have hpd := base128Parse_digits (a :: tl) 0 (n % 128) rest hbound hlast
      simp only [List.map_cons, List.cons_append] at hpd
      rw [hpd]
      rw [hval]
      have hmd := Nat.mod_add_div n 128
      congr 2
      omega

theorem parseSubidentsF_nil (f : Nat) : parseSubidentsF f [] = some [] := by
  cases f <;> rfl

theorem base128Enc_ne_nil (n : Nat) : base128Enc n ≠ [] := by
  simp only [base128Enc]
  intro h
  have := List.append_eq_nil.1 h
  simp at this

theorem parseSubidentsF_flatMap :
    ∀ (ns : List Nat) (f : Nat), (ns.flatMap base128Enc).length ≤ f →
      parseSubidentsF f (ns.flatMap base128Enc) = some ns := by
  intro ns
  induction ns with
  | nil =>
    intro f _
    simp [parseSubidentsF_nil]
  | cons n ns ih =>
    intro f hf
    rcases he : base128Enc n with _ | ⟨b, tl⟩
    · exact absurd he (base128Enc_ne_nil n)
    · have hflat : (n :: ns).flatMap base128Enc = b :: (tl ++ ns.flatMap base128Enc) := by
        simp [List.flatMap_cons, he]
      rw [hflat] at hf ⊢
      rcases f with _ | f
      · simp at hf
      · have hsub : parseSubident (b :: (tl ++ ns.flatMap base128Enc)) =
            some (n, ns.flatMap base128Enc) := by
          have h2 := parseSubident_base128Enc n (ns.flatMap base128Enc)
          rw [he] at h2
          simpa using h2
        simp only [parseSubidentsF, hsub, Option.some_bind]
        have hlen : (ns.flatMap base128Enc).length ≤ f := by
          simp only [List.length_cons, List.length_append] at hf
          omega
        rw [ih f hlen]
        rfl

theorem encodeOIDContent_ne_nil (a b : Nat) (rest : List Nat) :
    encodeOIDContent (a :: b :: rest) ≠ [] := by
  simp only [encodeOIDContent]
  intro h
  have := List.append_eq_nil.1 h
  exact absurd this.1 (base128Enc_ne_nil _)

theorem decodeOID_encodeOID (oid : List Nat) (h : oidValidB oid = true) :
    decodeOIDContent (encodeOIDContent oid) = some oid := by
  rcases oid with _ | ⟨a, oid1⟩
  · simp [oidValidB] at h
  rcases oid1 with _ | ⟨b, rest⟩
  · simp [oidValidB] at h
  have hab : a ≤ 2 ∧ (a = 2 ∨ b < 40) := by
    simp only [oidValidB, Bool.and_eq_true, Bool.or_eq_true, decide_eq_true_eq] at h
    exact ⟨h.1, h.2⟩
  have henc : encodeOIDContent (a :: b :: rest) =
      base128Enc (40 * a + b) ++ rest.flatMap base128Enc := rfl
  rcases he : base128Enc (40 * a + b) ++ rest.flatMap base128Enc with _ | ⟨x, xs⟩
  · have := List.append_eq_nil.1 he
    exact absurd this.1 (base128Enc_ne_nil _)
  · simp only [decodeOIDContent, henc, he]
    rw [← he]
    rw [parseSubident_base128Enc]
    simp only [Option.some_bind]
    rw [parseSubidents, parseSubidentsF_flatMap rest _ le_rfl]
    simp only [Option.map_some']
    congr 1
    rcases hab.2 with h2 | h2
    · subst h2
      have hge : ¬ (40 * 2 + b < 80) := by omega
      rw [if_neg hge]
      have hv : 40 * 2 + b - 80 = b := by omega
      rw [hv]
      rfl
    · have ha2 : a = 0 ∨ a = 1 ∨ a = 2 := by omega
      rcases ha2 with h3 | h3 | h3
      · subst h3
        rw [if_pos (by omega)]
        have hdiv : (40 * 0 + b) / 40 = 0 := by omega
        have hmod : (40 * 0 + b) % 40 = b := by omega
        rw [hdiv, hmod]
        rfl
      · subst h3
        rw [if_pos (by omega)]
        have hdiv : (40 * 1 + b) / 40 = 1 := by omega
        have hmod : (40 * 1 + b) % 40 = b := by omega
        rw [hdiv, hmod]
        rfl
      · subst h3
        rw [if_neg (by omega)]
        have hv : 40 * 2 + b - 80 = b := by omega
        rw [hv]
        rfl

/-! ## Lemmas about string fields and role records -/

theorem printableMarshal_imp_parse (b : Nat) (h : printableMarshalByte b = true) :
    printableParseByte b = true := by
  simp only [printableMarshalByte, Bool.or_eq_true, Bool.and_eq_true,
    decide_eq_true_eq] at h
  simp only [printableParseByte, Bool.or_eq_true, Bool.and_eq_true, decide_eq_true_eq]
  tauto

theorem marshalGoStr_cases (s : List Nat) (q : Nat × List Nat)
    (h : marshalGoStr s = some q) :
    q.2 = s ∧ (q.1 = 19 ∧ s.all printableMarshalByte = true ∨
      q.1 = 12 ∧ utf8Valid s = true) := by
  unfold marshalGoStr at h
  split at h
  next h1 =>
    cases h
    exact ⟨rfl, Or.inl ⟨rfl, h1⟩⟩
  next h1 =>
    split at h
    next h2 =>
      cases h
      exact ⟨rfl, Or.inr ⟨rfl, h2⟩⟩
    next h2 => cases h

theorem parseStringField_marshal (s : List Nat) (q : Nat × List Nat)
    (h : marshalGoStr s = some q) (rest : List Nat) :
    parseStringField (encTLV q.1 q.2 ++ rest) = some (s, rest) := by
  obtain ⟨hq2, hcase⟩ := marshalGoStr_cases s q h
  rcases hcase with ⟨ht, hall⟩ | ⟨ht, hutf⟩
  · have hparse : ∀ x ∈ s, printableParseByte x = true :=
      fun x hx => printableMarshal_imp_parse x (List.all_eq_true.1 hall x hx)
    simp only [parseStringField, parseTLV_encTLV, ht, hq2, Option.some_bind]
    rw [if_pos trivial, if_pos (List.all_eq_true.2 hparse)]
  · simp [parseStringField, parseTLV_encTLV, ht, hq2, Option.some_bind, hutf]

theorem parseStringField_utf8 (s : List Nat) (h : utf8Valid s = true) (rest : List Nat) :
    parseStringField (encTLV 12 s ++ rest) = some (s, rest) := by
  simp [parseStringField, parseTLV_encTLV, h]

theorem parseOIDField_enc (oid : List Nat) (h : oidValidB oid = true) (rest : List Nat) :
    parseOIDField (encTLV 6 (encodeOIDContent oid) ++ rest) = some (oid, rest) := by
  simp [parseOIDField, parseTLV_encTLV, decodeOID_encodeOID oid h]

theorem lenEncode_ne_nil (n : Nat) : lenEncode n ≠ [] := by
  by_cases h : n < 128 <;> simp [lenEncode, h]

theorem encTLV_length_ge (t : Nat) (c : List Nat) : 2 ≤ (encTLV t c).length := by
  simp only [encTLV, List.length_cons, List.length_append]
  rcases hl : lenEncode c.length with _ | ⟨a, tl⟩
  · exact absurd hl (lenEncode_ne_nil _)
  · simp
    omega

theorem parseSeqOfRolesF_nil (f : Nat) : Qc.parseSeqOfRolesF f [] = some [] := by
  cases f <;> rfl

theorem parseRole_enc (p : List Nat × List Nat) (q : Nat × List Nat)
    (hoid : oidValidB p.1 = true) (hq : marshalGoStr p.2 = some q) :
    Qc.parseRole (encTLV 6 (encodeOIDContent p.1) ++ encTLV q.1 q.2) = some p := by
  simp only [Qc.parseRole, parseOIDField_enc p.1 hoid, Option.some_bind]
  have hs : parseStringField (encTLV q.1 q.2) = some (p.2, []) := by
    have h2 := parseStringField_marshal p.2 q hq []
    simpa using h2
  rw [hs]
  rfl

theorem roles_roundtrip (pairs : List (List Nat × List Nat))
    (hp : ∀ p ∈ pairs, encodeRoleOK p) :
    ∃ rs, mapOpt (fun p => Qc.encodeRole p.1 p.2) pairs = some rs ∧
      ∀ g, rs.flatten.length ≤ g → Qc.parseSeqOfRolesF g rs.flatten = some pairs := by
  induction pairs with
  | nil =>
    refine ⟨[], rfl, ?_⟩
    intro g _
    simp [parseSeqOfRolesF_nil]
  | cons p ps ih =>
    obtain ⟨hoid, hstr⟩ := hp p (by simp)
    obtain ⟨rs, hmap, hparse⟩ := ih (fun x hx => hp x (by simp [hx]))
    rcases hq : marshalGoStr p.2 with _ | q
    · rw [hq] at hstr
      simp at hstr
    · have hrole : Qc.encodeRole p.1 p.2 =
          some (encTLV 48 (encTLV 6 (encodeOIDContent p.1) ++ encTLV q.1 q.2)) := by
        simp [Qc.encodeRole, encodeOID, hoid, hq]
      refine ⟨encTLV 48 (encTLV 6 (encodeOIDContent p.1) ++ encTLV q.1 q.2) :: rs, ?_, ?_⟩
      · simp only [mapOpt, hrole, hmap, Option.some_bind, Option.map_some']
      · intro g hg
        set cnt := encTLV 6 (encodeOIDContent p.1) ++ encTLV q.1 q.2 with hcnt
        have hflat : (encTLV 48 cnt :: rs).flatten = encTLV 48 cnt ++ rs.flatten := by
          simp
        rw [hflat] at hg ⊢
        have hel : 2 ≤ (encTLV 48 cnt).length := encTLV_length_ge 48 cnt
        have hg1 : 1 ≤ g := by
          simp only [List.length_append] at hg
          omega
        rcases g with _ | g
        · omega
        · have hcons : encTLV 48 cnt ++ rs.flatten =
              48 :: (lenEncode cnt.length ++ cnt ++ rs.flatten) := by
            simp [encTLV]
          have hstep : parseTLV (48 :: (lenEncode cnt.length ++ cnt ++ rs.flatten)) =
              some (48, cnt, rs.flatten) := by
            rw [← hcons]
            exact parseTLV_encTLV 48 cnt rs.flatten
          have hrsf : rs.flatten.length ≤ g := by
            simp only [List.length_append] at hg
            omega
          rw [hcons]
          simp only [Qc.parseSeqOfRolesF, hstep, Option.some_bind]
          rw [parseRole_enc p q hoid hq]
          simp only [Option.some_bind]
          rw [hparse g hrsf]
          rfl


theorem parseSeqOfOIDsF_nil (f : Nat) : Qc.parseSeqOfOIDsF f [] = some [] := by
  cases f <;> rfl

theorem parseSeqOfOIDs_single (t : List Nat) (h : oidValidB t = true) :
    Qc.parseSeqOfOIDs (encTLV 6 (encodeOIDContent t)) = some [t] := by
  have hcons : encTLV 6 (encodeOIDContent t) =
      6 :: (lenEncode (encodeOIDContent t).length ++ encodeOIDContent t) := by
    simp [encTLV]
  have hstep : parseTLV
      (6 :: (lenEncode (encodeOIDContent t).length ++ encodeOIDContent t)) =
      some (6, encodeOIDContent t, []) := by
    rw [← hcons]
    exact parseTLV_encTLV_nil 6 _
  rw [Qc.parseSeqOfOIDs, hcons]
  simp only [List.length_cons]
  simp only [Qc.parseSeqOfOIDsF, hstep, Option.some_bind]
  simp [decodeOID_encodeOID t h, parseSeqOfOIDsF_nil]

/-- Inversion of the codec: decoding inverts encoding of the `root`
structure, for any role records, authority strings and flavor identifier the
encoders accept, with any trailing bytes after the outer SEQUENCE ignored. -/
theorem extract_encodeRoot (pairs : List (List Nat × List Nat))
    (ca : Qc.CompetentAuthority) (t : List Nat)
    (hp : ∀ p ∈ pairs, encodeRoleOK p) (ht : oidValidB t = true)
    (hn : utf8Valid ca.Name = true) (hi : utf8Valid ca.ID = true) :
    ∃ bytes, Qc.encodeRoot pairs ca t = some bytes ∧
      ∀ extra, Qc.Extract (bytes ++ extra) =
        some (pairs.map Prod.snd, ca.Name, ca.ID) := by
  obtain ⟨rs, hmap, hparse⟩ := roles_roundtrip pairs hp
  have htenc : encodeOID t = some (encTLV 6 (encodeOIDContent t)) := by
    simp [encodeOID, ht]
  refine ⟨encTLV 48
      (encTLV 48 (encTLV 6 (encodeOIDContent [0, 4, 0, 1862, 1, 6]) ++
        encTLV 48 (encTLV 6 (encodeOIDContent t))) ++
      encTLV 48 (encTLV 6 (encodeOIDContent [0, 4, 0, 19495, 2]) ++
        encTLV 48 (encTLV 48 rs.flatten ++ encUTF8 ca.Name ++ encUTF8 ca.ID))), ?_, ?_⟩
  · simp [Qc.encodeRoot, hmap, htenc]
  · intro extra
    have h0 : parseTLV ((encTLV 48
        (encTLV 48 (encTLV 6 (encodeOIDContent [0, 4, 0, 1862, 1, 6]) ++
          encTLV 48 (encTLV 6 (encodeOIDContent t))) ++
        encTLV 48 (encTLV 6 (encodeOIDContent [0, 4, 0, 19495, 2]) ++
          encTLV 48 (encTLV 48 rs.flatten ++ encUTF8 ca.Name ++ encUTF8 ca.ID)))) ++ extra) =
        some (48,
          encTLV 48 (encTLV 6 (encodeOIDContent [0, 4, 0, 1862, 1, 6]) ++
            encTLV 48 (encTLV 6 (encodeOIDContent t))) ++
          encTLV 48 (encTLV 6 (encodeOIDContent [0, 4, 0, 19495, 2]) ++
            encTLV 48 (encTLV 48 rs.flatten ++ encUTF8 ca.Name ++ encUTF8 ca.ID)),
          extra) := parseTLV_encTLV 48 _ extra
    have h1 : parseTLV
        (encTLV 48 (encTLV 6 (encodeOIDContent [0, 4, 0, 1862, 1, 6]) ++
          encTLV 48 (encTLV 6 (encodeOIDContent t))) ++
        encTLV 48 (encTLV 6 (encodeOIDContent [0, 4, 0, 19495, 2]) ++
          encTLV 48 (encTLV 48 rs.flatten ++ encUTF8 ca.Name ++ encUTF8 ca.ID))) =
        some (48,
          encTLV 6 (encodeOIDContent [0, 4, 0, 1862, 1, 6]) ++
            encTLV 48 (encTLV 6 (encodeOIDContent t)),
          encTLV 48 (encTLV 6 (encodeOIDContent [0, 4, 0, 19495, 2]) ++
            encTLV 48 (encTLV 48 rs.flatten ++ encUTF8 ca.Name ++ encUTF8 ca.ID))) :=
      parseTLV_encTLV 48 _ _
    have h2 : parseOIDField
        (encTLV 6 (encodeOIDContent [0, 4, 0, 1862, 1, 6]) ++
          encTLV 48 (encTLV 6 (encodeOIDContent t))) =
        some ([0, 4, 0, 1862, 1, 6], encTLV 48 (encTLV 6 (encodeOIDContent t))) :=
      parseOIDField_enc [0, 4, 0, 1862, 1, 6] (by decide) _
    have h3 : parseTLV (encTLV 48 (encTLV 6 (encodeOIDContent t))) =
        some (48, encTLV 6 (encodeOIDContent t), []) := parseTLV_encTLV_nil 48 _
    have h4 : Qc.parseSeqOfOIDs (encTLV 6 (encodeOIDContent t)) = some [t] :=
      parseSeqOfOIDs_single t ht
    have h5 : parseTLV
        (encTLV 48 (encTLV 6 (encodeOIDContent [0, 4, 0, 19495, 2]) ++
          encTLV 48 (encTLV 48 rs.flatten ++ encUTF8 ca.Name ++ encUTF8 ca.ID))) =
        some (48,
          encTLV 6 (encodeOIDContent [0, 4, 0, 19495, 2]) ++
            encTLV 48 (encTLV 48 rs.flatten ++ encUTF8 ca.Name ++ encUTF8 ca.ID),
          []) := parseTLV_encTLV_nil 48 _
    have h6 : parseOIDField
        (encTLV 6 (encodeOIDContent [0, 4, 0, 19495, 2]) ++
          encTLV 48 (encTLV 48 rs.flatten ++ encUTF8 ca.Name ++ encUTF8 ca.ID)) =
        some ([0, 4, 0, 19495, 2],
          encTLV 48 (encTLV 48 rs.flatten ++ encUTF8 ca.Name ++ encUTF8 ca.ID)) :=
      parseOIDField_enc [0, 4, 0, 19495, 2] (by decide) _
    have h7 : parseTLV
        (encTLV 48 (encTLV 48 rs.flatten ++ encUTF8 ca.Name ++ encUTF8 ca.ID)) =
        some (48, encTLV 48 rs.flatten ++ encUTF8 ca.Name ++ encUTF8 ca.ID, []) :=
      parseTLV_encTLV_nil 48 _
    have h8 : parseTLV (encTLV 48 rs.flatten ++ encUTF8 ca.Name ++ encUTF8 ca.ID) =
        some (48, rs.flatten, encUTF8 ca.Name ++ encUTF8 ca.ID) := by
      have hassoc : encTLV 48 rs.flatten ++ encUTF8 ca.Name ++ encUTF8 ca.ID =
          encTLV 48 rs.flatten ++ (encUTF8 ca.Name ++ encUTF8 ca.ID) := by
        simp [List.append_assoc]
      rw [hassoc]
      exact parseTLV_encTLV 48 _ _
    have h9 : Qc.parseSeqOfRoles rs.flatten = some pairs := by
      rw [Qc.parseSeqOfRoles]
      exact hparse _ le_rfl
    have h10 : parseStringField (encUTF8 ca.Name ++ encUTF8 ca.ID) =
        some (ca.Name, encUTF8 ca.ID) := parseStringField_utf8 ca.Name hn _
    have h11 : parseStringField (encUTF8 ca.ID) = some (ca.ID, []) := by
      have h12 := parseStringField_utf8 ca.ID hi []
      simpa [encUTF8] using h12
    simp only [Qc.Extract, Qc.unmarshalRoot, h0, h1, h2, h3, h4, h5, h6, h7, h8, h9,
      h10, h11, Option.some_bind, Option.map_some']
    simp


/-! ## Supporting lemmas for the claims -/

theorem rolePairs_known (roles : List (List Nat))
    (h : ∀ r ∈ roles, (Qc.roleMap r).isSome = true) :
    ∃ pairs, Qc.rolePairs roles = some pairs ∧ pairs.map Prod.snd = roles ∧
      ∀ p ∈ pairs, ∃ c, Qc.roleMap p.2 = some c ∧ p.1 = Qc.roleOID c := by
  induction roles with
  | nil => exact ⟨[], rfl, rfl, by simp⟩
  | cons r rs ih =>
    obtain ⟨pairs, h1, h2, h3⟩ := ih (fun x hx => h x (by simp [hx]))
    have hr := h r (by simp)
    rcases hc : Qc.roleMap r with _ | c
    · rw [hc] at hr
      simp at hr
    · refine ⟨(Qc.roleOID c, r) :: pairs, ?_, ?_, ?_⟩
      · simp [Qc.rolePairs, hc, h1]
      · simp [h2]
      · intro p hp
        rcases List.mem_cons.1 hp with h4 | h4
        · subst h4
          exact ⟨c, hc, rfl⟩
        · exact h3 p h4

theorem rolePairs_unknown (roles : List (List Nat)) (r : List Nat)
    (hr : r ∈ roles) (hnone : Qc.roleMap r = none) :
    Qc.rolePairs roles = none := by
  induction roles with
  | nil => simp at hr
  | cons x xs ih =>
    rcases List.mem_cons.1 hr with h1 | h1
    · subst h1
      simp [Qc.rolePairs, hnone]
    · rcases hx : Qc.roleMap x with _ | c
      · simp [Qc.rolePairs, hx]
      · simp [Qc.rolePairs, hx, ih h1]

theorem roleMap_isSome_cases (r : List Nat) (h : (Qc.roleMap r).isSome = true) :
    r = Qc.RoleAccountServicing ∨ r = Qc.RolePaymentInitiation ∨
      r = Qc.RoleAccountInformation ∨ r = Qc.RolePaymentInstruments := by
  unfold Qc.roleMap at h
  split_ifs at h with h1 h2 h3 h4
  · exact Or.inl h1
  · exact Or.inr (Or.inl h2)
  · exact Or.inr (Or.inr (Or.inl h3))
  · exact Or.inr (Or.inr (Or.inr h4))
  · simp at h

theorem oidValidB_roleOID (c : Nat) : oidValidB (Qc.roleOID c) = true := rfl

theorem caMap_utf8 : ∀ e ∈ Qc.caMap, utf8Valid e.2.Name = true ∧ utf8Valid e.2.ID = true := by
  decide

theorem lookup_utf8 (code : List Nat) (ca : Qc.CompetentAuthority)
    (h : Qc.CompetentAuthorityForCountryCode code = some ca) :
    utf8Valid ca.Name = true ∧ utf8Valid ca.ID = true := by
  unfold Qc.CompetentAuthorityForCountryCode at h
  rcases hf : Qc.caMap.find? fun e => e.1 = code with _ | e
  · rw [hf] at h
    simp at h
  · rw [hf] at h
    simp only [Option.map_some', Option.some_inj] at h
    subst h
    exact caMap_utf8 e (List.mem_of_find?_eq_some hf)

/-! ## Claim theorems -/

/-- C1: for every role list drawn from the four valid tokens (duplicates and
the empty list included), every authority obtained from a supported country
code, and either flavor object identifier, `Extract` applied to the output of
`Serialize` succeeds and returns exactly the input role list in order, the
authority name, and the authority identifier. -/
theorem C1_serialize_extract_roundtrip (roles : List (List Nat))
    (hroles : ∀ r ∈ roles, r = Qc.RoleAccountServicing ∨ r = Qc.RolePaymentInitiation ∨
      r = Qc.RoleAccountInformation ∨ r = Qc.RolePaymentInstruments)
    (code : List Nat) (ca : Qc.CompetentAuthority)
    (hca : Qc.CompetentAuthorityForCountryCode code = some ca)
    (t : List Nat) (ht : t = Qc.QWACType ∨ t = Qc.QSEALType) :
    ∃ bytes, Qc.Serialize roles ca t = some bytes ∧
      Qc.Extract bytes = some (roles, ca.Name, ca.ID) := by
  have hsome : ∀ r ∈ roles, (Qc.roleMap r).isSome = true := by
    intro r hr
    rcases hroles r hr with h | h | h | h <;> subst h <;> decide
  obtain ⟨pairs, hrp, hsnd, hpp⟩ := rolePairs_known roles hsome
  have hok : ∀ p ∈ pairs, encodeRoleOK p := by
    intro p hp2
    obtain ⟨c, hc, hoid⟩ := hpp p hp2
    constructor
    · rw [hoid]
      exact oidValidB_roleOID c
    · have hps : (Qc.roleMap p.2).isSome = true := by
        rw [hc]
        rfl
      rcases roleMap_isSome_cases p.2 hps with h | h | h | h <;> rw [h] <;> decide
  have hts : oidValidB t = true := by
    rcases ht with h | h <;> subst h <;> decide
  obtain ⟨hn, hi⟩ := lookup_utf8 code ca hca
  obtain ⟨bytes, henc, hext⟩ := extract_encodeRoot pairs ca t hok hts hn hi
  refine ⟨bytes, ?_, ?_⟩
  · rw [Qc.Serialize, hrp]
    simpa using henc
  · have h2 := hext []
    rw [List.append_nil] at h2
    rw [h2, hsnd]

/-- C1 witness: a concrete instantiation of the round trip. -/
theorem C1_serialize_extract_roundtrip_witness :
    ∃ bytes, Qc.Serialize [Qc.RoleAccountInformation, Qc.RolePaymentInitiation]
        ⟨str "Financial Conduct Authority", str "GB-FCA"⟩ Qc.QWACType = some bytes ∧
      Qc.Extract bytes = some ([Qc.RoleAccountInformation, Qc.RolePaymentInitiation],
        str "Financial Conduct Authority", str "GB-FCA") :=
  C1_serialize_extract_roundtrip
    [Qc.RoleAccountInformation, Qc.RolePaymentInitiation]
    (by decide) (str "GB")
    ⟨str "Financial Conduct Authority", str "GB-FCA"⟩
    (by decide) Qc.QWACType (Or.inl rfl)

/-- C2 counterexample: the first section-6 payload does not decode to the two
roles the specification states; the payload uses the legacy flat role layout,
one SEQUENCE holding both identifier/token pairs, and `Extract` reads a single
role record from it. -/
theorem C2_counterexample :
    ¬ (Qc.Extract hexVec1 =
      some ([Qc.RolePaymentInitiation, Qc.RoleAccountInformation],
        str "Financial Conduct Authority", str "GB-FCA")) := by
  decide

/-- C2 amended: both section-6 payloads decode with the stated authority name
and identifier, but the role list contains only the first stated role. -/
theorem C2_fixed_vectors :
    Qc.Extract hexVec1 = some ([Qc.RolePaymentInitiation],
      str "Financial Conduct Authority", str "GB-FCA") ∧
    Qc.Extract hexVec2 = some ([Qc.RoleAccountServicing],
      str "Financial Conduct Authority", str "GB-FCA") := by
  constructor <;> decide

/-- C3: the current codec fails closed, rejecting any role list containing an
unknown token and any country code outside the table; the legacy `Serialize`
kept in src/eidas.go, however, returns bytes for an unknown role (no
membership check, zero role code), contradicting the stated invariant. -/
theorem C3_unknown_inputs :
    (∀ (roles : List (List Nat)) (ca : Qc.CompetentAuthority) (t r : List Nat),
        r ∈ roles → Qc.roleMap r = none → Qc.Serialize roles ca t = none) ∧
    (∀ code : List Nat, (∀ e ∈ Qc.caMap, ¬ e.1 = code) →
        Qc.CompetentAuthorityForCountryCode code = none) ∧
    (EidasLegacy.Serialize [str "PSP_XX"]
        (str "Financial Conduct Authority") (str "GB-FCA")).isSome = true := by
  refine ⟨?_, ?_, by decide⟩
  · intro roles ca t r hr hnone
    rw [Qc.Serialize, rolePairs_unknown roles r hr hnone]
    rfl
  · intro code hcode
    unfold Qc.CompetentAuthorityForCountryCode
    have hnone : (Qc.caMap.find? fun e => e.1 = code) = none := by
      rw [List.find?_eq_none]
      intro e he
      simpa using hcode e he
    rw [hnone]
    rfl

/-- C3 witness: the concrete failing inputs of the specification. -/
theorem C3_unknown_inputs_witness :
    Qc.Serialize [str "PSP_XX"]
        ⟨str "Financial Conduct Authority", str "GB-FCA"⟩ Qc.QWACType = none ∧
    Qc.CompetentAuthorityForCountryCode (str "ZZ") = none ∧
    (EidasLegacy.Serialize [str "PSP_XX"]
        (str "Financial Conduct Authority") (str "GB-FCA")).isSome = true :=
  ⟨C3_unknown_inputs.1 [str "PSP_XX"] ⟨str "Financial Conduct Authority", str "GB-FCA"⟩
      Qc.QWACType (str "PSP_XX") (by decide) (by decide),
   C3_unknown_inputs.2.1 (str "ZZ") (by decide),
   C3_unknown_inputs.2.2⟩


/-- C4: flavor branching of key usage and extended key usage, with failure on
any other flavor object identifier. -/
theorem C4_flavor_branching :
    Csr.keyUsageForType Qc.QWACType = some [Csr.KeyUsageDigitalSignature] ∧
    Csr.extendedKeyUsageForType Qc.QWACType =
      some [[1, 3, 6, 1, 5, 5, 7, 3, 1], [1, 3, 6, 1, 5, 5, 7, 3, 2]] ∧
    Csr.keyUsageForType Qc.QSEALType =
      some [Csr.KeyUsageDigitalSignature, Csr.KeyUsageContentCommitment] ∧
    Csr.extendedKeyUsageForType Qc.QSEALType = some [] ∧
    (∀ t : List Nat, ¬ t = Qc.QWACType → ¬ t = Qc.QSEALType →
      Csr.keyUsageForType t = none ∧ Csr.extendedKeyUsageForType t = none) := by
  refine ⟨by decide, by decide, by decide, by decide, ?_⟩
  intro t h1 h2
  constructor
  · simp [Csr.keyUsageForType, h1, h2]
  · simp [Csr.extendedKeyUsageForType, h1, h2]

/-- C4 witness: a flavor identifier that is neither QWAC nor QSEAL fails both
computations. -/
theorem C4_flavor_branching_witness :
    Csr.keyUsageForType [1, 2, 3] = none ∧ Csr.extendedKeyUsageForType [1, 2, 3] = none :=
  C4_flavor_branching.2.2.2.2 [1, 2, 3] (by decide) (by decide)

/-- C5: the assembled extension list of `GenerateCSR` holds no extension with
identifier 2.5.29.37 for the seal flavor, and exactly one, not critical, for
the website-authentication flavor. -/
theorem C5_eku_omitted (qc : List Nat) (key : Csr.RSAPublicKey) :
    (∃ l, Csr.csrExtensions Qc.QSEALType qc key = some l ∧
        l.countP (fun e => e.Id = [2, 5, 29, 37]) = 0) ∧
    (∃ l, Csr.csrExtensions Qc.QWACType qc key = some l ∧
        l.countP (fun e => e.Id = [2, 5, 29, 37]) = 1 ∧
        ∀ e ∈ l, e.Id = [2, 5, 29, 37] → e.Critical = false) := by
  constructor
  · refine ⟨[Csr.KeyUsageExtension [Csr.KeyUsageDigitalSignature,
        Csr.KeyUsageContentCommitment],
      Csr.subjectKeyIdentifier key, Csr.qcStatementsExtension qc], ?_, ?_⟩
    · rfl
    · simp [List.countP_cons, Csr.KeyUsageExtension, Csr.subjectKeyIdentifier,
        Csr.qcStatementsExtension, Csr.QCStatementsExt, List.countP_nil]
  · refine ⟨[Csr.KeyUsageExtension [Csr.KeyUsageDigitalSignature],
      Csr.extendedKeyUsageExtension [[1, 3, 6, 1, 5, 5, 7, 3, 1], [1, 3, 6, 1, 5, 5, 7, 3, 2]],
      Csr.subjectKeyIdentifier key, Csr.qcStatementsExtension qc], ?_, ?_, ?_⟩
    · rfl
    · simp [List.countP_cons, Csr.KeyUsageExtension, Csr.extendedKeyUsageExtension,
        Csr.subjectKeyIdentifier, Csr.qcStatementsExtension, Csr.QCStatementsExt,
        List.countP_nil]
    · intro e he hid
      rcases List.mem_cons.1 he with h | he2
      · subst h
        rw [Csr.KeyUsageExtension] at hid
        simp at hid
      · rcases List.mem_cons.1 he2 with h | he3
        · subst h
          rfl
        · rcases List.mem_cons.1 he3 with h | he4
          · subst h
            rw [Csr.subjectKeyIdentifier] at hid
            simp at hid
          · rcases List.mem_cons.1 he4 with h | he5
            · subst h
              rw [Csr.qcStatementsExtension] at hid
              simp [Csr.QCStatementsExt] at hid
            · simp at he5

theorem natOr_left_comm (a b c : Nat) : a ||| (b ||| c) = b ||| (a ||| c) := by
  rw [← Nat.or_assoc, Nat.or_comm a b, Nat.or_assoc]

theorem natOr_self_left (a b : Nat) : a ||| (a ||| b) = a ||| b := by
  rw [← Nat.or_assoc, Nat.or_self]

theorem kuFold (usages : List Nat)
    (h : ∀ u ∈ usages, u = 1 ∨ u = 2) :
    ∀ acc : Nat,
      usages.foldl (fun a u => a ||| (if u ≤ 8 then 2 ^ (8 - u) % 65536 else 0)) acc =
        acc ||| ((if (1 : Nat) ∈ usages then 128 else 0) |||
          (if (2 : Nat) ∈ usages then 64 else 0)) := by
  induction usages with
  | nil => simp
  | cons u us ih =>
    intro acc
    rcases h u (by simp) with h1 | h1 <;> subst h1
    · have step : ∀ a : Nat,
          (a ||| (if (1 : Nat) ≤ 8 then 2 ^ (8 - 1) % 65536 else 0)) = a ||| 128 := by
        intro a
        norm_num
      simp only [List.foldl_cons, step, ih (fun x hx => h x (by simp [hx]))]
      by_cases hm1 : (1 : Nat) ∈ us <;> by_cases hm2 : (2 : Nat) ∈ us <;>
        simp [hm1, hm2, Nat.or_assoc, Nat.or_comm, natOr_left_comm, Nat.or_self,
          natOr_self_left]
    · have step : ∀ a : Nat,
          (a ||| (if (2 : Nat) ≤ 8 then 2 ^ (8 - 2) % 65536 else 0)) = a ||| 64 := by
        intro a
        norm_num
      simp only [List.foldl_cons, step, ih (fun x hx => h x (by simp [hx]))]
      by_cases hm1 : (1 : Nat) ∈ us <;> by_cases hm2 : (2 : Nat) ∈ us <;>
        simp [hm1, hm2, Nat.or_assoc, Nat.or_comm, natOr_left_comm, Nat.or_self,
          natOr_self_left]

theorem KeyUsageExtension_eq (usages : List Nat) (x : Nat)
    (hx : usages.foldl (fun a u => a ||| (if u ≤ 8 then 2 ^ (8 - u) % 65536 else 0)) 0 = x) :
    Csr.KeyUsageExtension usages =
      ⟨[2, 5, 29, 15], true, encTLV 3 [0, x % 256, x / 256 % 256]⟩ := by
  simp only [Csr.KeyUsageExtension, hx, Csr.KeyUsageDecipherOnly]

/-- C6: for every list of usages drawn from digital-signature and
content-commitment, `KeyUsageExtension` is the critical extension 2.5.29.15
whose value is a DER bit string with zero unused-bits octet and whose first
content octet has bit 0 (most significant) set exactly for digital signature
and bit 1 exactly for content commitment. -/
theorem C6_key_usage_packing (usages : List Nat)
    (h : ∀ u ∈ usages, u = Csr.KeyUsageDigitalSignature ∨ u = Csr.KeyUsageContentCommitment) :
    (Csr.KeyUsageExtension usages).Id = [2, 5, 29, 15] ∧
    (Csr.KeyUsageExtension usages).Critical = true ∧
    ∃ b : Nat, (Csr.KeyUsageExtension usages).Value = [3, 3, 0, b, 0] ∧
      (b.testBit 7 = true ↔ Csr.KeyUsageDigitalSignature ∈ usages) ∧
      (b.testBit 6 = true ↔ Csr.KeyUsageContentCommitment ∈ usages) := by
  have hfold := kuFold usages h 0
  refine ⟨rfl, rfl, ?_⟩
  by_cases hm1 : (1 : Nat) ∈ usages <;> by_cases hm2 : (2 : Nat) ∈ usages
  · have hx := hfold.trans (by rw [if_pos hm1, if_pos hm2])
    refine ⟨192, ?_, iff_of_true (by decide) hm1, iff_of_true (by decide) hm2⟩
    rw [KeyUsageExtension_eq usages (0 ||| (128 ||| 64)) hx]
    decide
  · have hx := hfold.trans (by rw [if_pos hm1, if_neg hm2])
    refine ⟨128, ?_, iff_of_true (by decide) hm1, iff_of_false (by decide) hm2⟩
    rw [KeyUsageExtension_eq usages (0 ||| (128 ||| 0)) hx]
    decide
  · have hx := hfold.trans (by rw [if_neg hm1, if_pos hm2])
    refine ⟨64, ?_, iff_of_false (by decide) hm1, iff_of_true (by decide) hm2⟩
    rw [KeyUsageExtension_eq usages (0 ||| (0 ||| 64)) hx]
    decide
  · have hx := hfold.trans (by rw [if_neg hm1, if_neg hm2])
    refine ⟨0, ?_, iff_of_false (by decide) hm1, iff_of_false (by decide) hm2⟩
    rw [KeyUsageExtension_eq usages (0 ||| (0 ||| 0)) hx]
    decide

/-- C6 witness: both usages set gives first content octet 0xC0. -/
theorem C6_key_usage_packing_witness :
    (Csr.KeyUsageExtension [Csr.KeyUsageDigitalSignature,
        Csr.KeyUsageContentCommitment]).Id = [2, 5, 29, 15] ∧
    (Csr.KeyUsageExtension [Csr.KeyUsageDigitalSignature,
        Csr.KeyUsageContentCommitment]).Critical = true ∧
    ∃ b : Nat, (Csr.KeyUsageExtension [Csr.KeyUsageDigitalSignature,
        Csr.KeyUsageContentCommitment]).Value = [3, 3, 0, b, 0] ∧
      (b.testBit 7 = true ↔ Csr.KeyUsageDigitalSignature ∈
        [Csr.KeyUsageDigitalSignature, Csr.KeyUsageContentCommitment]) ∧
      (b.testBit 6 = true ↔ Csr.KeyUsageContentCommitment ∈
        [Csr.KeyUsageDigitalSignature, Csr.KeyUsageContentCommitment]) :=
  C6_key_usage_packing [Csr.KeyUsageDigitalSignature, Csr.KeyUsageContentCommitment]
    (by decide)

theorem sha1_length (msg : List Nat) : (Sha1.sha1 msg).length = 20 := by
  simp [Sha1.sha1, Sha1.digestBytes, Sha1.be32]

/-- C9: the subject-key-identifier builder is deterministic and yields the
extension 2.5.29.14, not critical, whose value is the 20-byte SHA-1 digest of
the PKCS#1 DER encoding of the public key wrapped as an OCTET STRING. -/
theorem C9_subject_key_identifier :
    (∀ k1 k2 : Csr.RSAPublicKey, k1 = k2 →
      Csr.subjectKeyIdentifier k1 = Csr.subjectKeyIdentifier k2) ∧
    (∀ key : Csr.RSAPublicKey,
      (Csr.subjectKeyIdentifier key).Id = [2, 5, 29, 14] ∧
      (Csr.subjectKeyIdentifier key).Critical = false ∧
      (Sha1.sha1 (Csr.MarshalPKCS1PublicKey key)).length = 20 ∧
      (Csr.subjectKeyIdentifier key).Value =
        4 :: 20 :: Sha1.sha1 (Csr.MarshalPKCS1PublicKey key)) := by
  refine ⟨fun k1 k2 h => by rw [h], ?_⟩
  intro key
  refine ⟨rfl, rfl, sha1_length _, ?_⟩
  show encTLV 4 (Sha1.sha1 (Csr.MarshalPKCS1PublicKey key)) = _
  rw [encTLV, sha1_length]
  rfl

/-- C9 witness: the shape at a concrete key. -/
theorem C9_subject_key_identifier_witness :
    Csr.subjectKeyIdentifier ⟨3233, 17⟩ = Csr.subjectKeyIdentifier ⟨3233, 17⟩ ∧
    (Csr.subjectKeyIdentifier ⟨3233, 17⟩).Id = [2, 5, 29, 14] ∧
    (Csr.subjectKeyIdentifier ⟨3233, 17⟩).Critical = false ∧
    (Sha1.sha1 (Csr.MarshalPKCS1PublicKey ⟨3233, 17⟩)).length = 20 ∧
    (Csr.subjectKeyIdentifier ⟨3233, 17⟩).Value =
      4 :: 20 :: Sha1.sha1 (Csr.MarshalPKCS1PublicKey ⟨3233, 17⟩) :=
  ⟨C9_subject_key_identifier.1 ⟨3233, 17⟩ ⟨3233, 17⟩ rfl,
   C9_subject_key_identifier.2 ⟨3233, 17⟩⟩


theorem readRDNsF_nil (f : Nat) : Check.readRDNsF f [] = some [] := by
  cases f <;> rfl

theorem rdn_roundtrip (items : List (List Nat × List Nat))
    (hi : ∀ i ∈ items, oidValidB i.1 = true ∧ (marshalGoStr i.2).isSome = true) :
    ∃ es, mapOpt (fun a => Csr.atvSetElem a.1 a.2) items = some es ∧
      ∀ g, es.flatten.length ≤ g → Check.readRDNsF g es.flatten = some items := by
  induction items with
  | nil =>
    refine ⟨[], rfl, ?_⟩
    intro g _
    simp [readRDNsF_nil]
  | cons i is ih =>
    obtain ⟨hoid, hstr⟩ := hi i (by simp)
    obtain ⟨es, hmap, hread⟩ := ih (fun x hx => hi x (by simp [hx]))
    rcases hq : marshalGoStr i.2 with _ | q
    · rw [hq] at hstr
      simp at hstr
    · have helem : Csr.atvSetElem i.1 i.2 =
          some (encTLV 49 (encTLV 48 (encTLV 6 (encodeOIDContent i.1) ++ encTLV q.1 q.2))) := by
        simp [Csr.atvSetElem, encodeOID, hoid, hq]
      refine ⟨encTLV 49 (encTLV 48 (encTLV 6 (encodeOIDContent i.1) ++ encTLV q.1 q.2)) :: es,
        ?_, ?_⟩
      · simp only [mapOpt, helem, hmap, Option.some_bind, Option.map_some']
      · intro g hg
        have hflat : (encTLV 49 (encTLV 48 (encTLV 6 (encodeOIDContent i.1) ++
            encTLV q.1 q.2)) :: es).flatten =
            encTLV 49 (encTLV 48 (encTLV 6 (encodeOIDContent i.1) ++ encTLV q.1 q.2)) ++
              es.flatten := by
          simp
        rw [hflat] at hg ⊢
        have hel : 2 ≤ (encTLV 49 (encTLV 48 (encTLV 6 (encodeOIDContent i.1) ++
            encTLV q.1 q.2))).length := encTLV_length_ge _ _
        rcases g with _ | g
        · simp only [List.length_append] at hg
          omega
        · have hcons : encTLV 49 (encTLV 48 (encTLV 6 (encodeOIDContent i.1) ++
              encTLV q.1 q.2)) ++ es.flatten =
              49 :: (lenEncode (encTLV 48 (encTLV 6 (encodeOIDContent i.1) ++
                encTLV q.1 q.2)).length ++
                encTLV 48 (encTLV 6 (encodeOIDContent i.1) ++ encTLV q.1 q.2) ++ es.flatten) := by
            simp [encTLV]
          have hstep : parseTLV (49 :: (lenEncode (encTLV 48 (encTLV 6 (encodeOIDContent i.1) ++
              encTLV q.1 q.2)).length ++
              encTLV 48 (encTLV 6 (encodeOIDContent i.1) ++ encTLV q.1 q.2) ++ es.flatten)) =
              some (49, encTLV 48 (encTLV 6 (encodeOIDContent i.1) ++ encTLV q.1 q.2),
                es.flatten) := by
            rw [← hcons]
            exact parseTLV_encTLV 49 _ _
          have hinner : parseTLV (encTLV 48 (encTLV 6 (encodeOIDContent i.1) ++
              encTLV q.1 q.2)) =
              some (48, encTLV 6 (encodeOIDContent i.1) ++ encTLV q.1 q.2, []) :=
            parseTLV_encTLV_nil 48 _
          have hatv : Check.readATV (encTLV 6 (encodeOIDContent i.1) ++ encTLV q.1 q.2) =
              some i := by
            simp only [Check.readATV, parseOIDField_enc i.1 hoid, Option.some_bind]
            have hs : parseStringField (encTLV q.1 q.2) = some (i.2, []) := by
              have h2 := parseStringField_marshal i.2 q hq []
              simpa using h2
            rw [hs]
            rfl
          have hesf : es.flatten.length ≤ g := by
            simp only [List.length_append] at hg
            omega
          rw [hcons]
          simp only [Check.readRDNsF, hstep, Option.some_bind, hinner, hatv,
            hread g hesf, Option.map_some']
          simp

/-- C7: the subject builder yields a DER name of exactly four single-attribute
relative distinguished names in the fixed order country, organization name,
organization identifier, common name, each carrying its input string, as
recovered by decoding the output. -/
theorem C7_subject_order (countryCode orgName commonName orgID : List Nat)
    (h1 : (marshalGoStr countryCode).isSome = true)
    (h2 : (marshalGoStr orgName).isSome = true)
    (h3 : (marshalGoStr orgID).isSome = true)
    (h4 : (marshalGoStr commonName).isSome = true) :
    ∃ b, Csr.buildSubject countryCode orgName commonName orgID = some b ∧
      Check.readName b = some [(Csr.oidCountryCode, countryCode),
        (Csr.oidOrganizationName, orgName), (Csr.oidOrganizationID, orgID),
        (Csr.oidCommonName, commonName)] := by
  have hitems : ∀ i ∈ [(Csr.oidCountryCode, countryCode),
      (Csr.oidOrganizationName, orgName), (Csr.oidOrganizationID, orgID),
      (Csr.oidCommonName, commonName)], oidValidB i.1 = true ∧ (marshalGoStr i.2).isSome = true := by
    intro i hi
    rcases List.mem_cons.1 hi with h | hi2
    · subst h
      exact ⟨(by decide : oidValidB Csr.oidCountryCode = true), h1⟩
    · rcases List.mem_cons.1 hi2 with h | hi3
      · subst h
        exact ⟨(by decide : oidValidB Csr.oidOrganizationName = true), h2⟩
      · rcases List.mem_cons.1 hi3 with h | hi4
        · subst h
          exact ⟨(by decide : oidValidB Csr.oidOrganizationID = true), h3⟩
        · rcases List.mem_cons.1 hi4 with h | hi5
          · subst h
            exact ⟨(by decide : oidValidB Csr.oidCommonName = true), h4⟩
          · simp at hi5
  obtain ⟨es, hmap, hread⟩ := rdn_roundtrip _ hitems
  refine ⟨encTLV 48 es.flatten, ?_, ?_⟩
  · simp only [Csr.buildSubject, hmap, Option.map_some']
  · have hrd := hread es.flatten.length le_rfl
    simp only [Check.readName, parseTLV_encTLV_nil, Option.some_bind]
    split
    next => exact hrd
    next hcond => exact absurd (by simp) hcond

/-- C7 witness: the concrete subject of the specification example. -/
theorem C7_subject_order_witness :
    ∃ b, Csr.buildSubject (str "GB") (str "Acme") (str "name") (str "ACME-1") = some b ∧
      Check.readName b = some [(Csr.oidCountryCode, str "GB"),
        (Csr.oidOrganizationName, str "Acme"), (Csr.oidOrganizationID, str "ACME-1"),
        (Csr.oidCommonName, str "name")] :=
  C7_subject_order (str "GB") (str "Acme") (str "name") (str "ACME-1")
    (by decide) (by decide) (by decide) (by decide)

/-- C8: `Extract` reports whatever role-token strings are structurally
present, without consulting the role catalog, so any statement built from
arbitrary identifier/token records decodes to exactly those tokens in order,
while `Serialize` rejects any list containing a token outside the closed
set. -/
theorem C8_extract_permissive :
    (∀ (pairs : List (List Nat × List Nat)) (ca : Qc.CompetentAuthority) (t : List Nat),
        (∀ p ∈ pairs, encodeRoleOK p) → oidValidB t = true →
        utf8Valid ca.Name = true → utf8Valid ca.ID = true →
        ∃ bytes, Qc.encodeRoot pairs ca t = some bytes ∧
          Qc.Extract bytes = some (pairs.map Prod.snd, ca.Name, ca.ID)) ∧
    (∀ (roles : List (List Nat)) (ca : Qc.CompetentAuthority) (t r : List Nat),
        r ∈ roles → Qc.roleMap r = none → Qc.Serialize roles ca t = none) := by
  constructor
  · intro pairs ca t hp ht hn hi
    obtain ⟨bytes, henc, hext⟩ := extract_encodeRoot pairs ca t hp ht hn hi
    refine ⟨bytes, henc, ?_⟩
    have h2 := hext []
    rwa [List.append_nil] at h2
  · intro roles ca t r hr hnone
    rw [Qc.Serialize, rolePairs_unknown roles r hr hnone]
    rfl

/-- C8 witness: a statement carrying the out-of-catalog token PSP_XX decodes
to that token while `Serialize` rejects it. -/
theorem C8_extract_permissive_witness :
    (∃ bytes, Qc.encodeRoot [([0, 4, 0, 19495, 1, 0], str "PSP_XX")]
        ⟨str "Financial Conduct Authority", str "GB-FCA"⟩ Qc.QWACType = some bytes ∧
      Qc.Extract bytes = some ([str "PSP_XX"],
        str "Financial Conduct Authority", str "GB-FCA")) ∧
    Qc.Serialize [str "PSP_XX"]
      ⟨str "Financial Conduct Authority", str "GB-FCA"⟩ Qc.QWACType = none :=
  ⟨C8_extract_permissive.1 [([0, 4, 0, 19495, 1, 0], str "PSP_XX")]
      ⟨str "Financial Conduct Authority", str "GB-FCA"⟩ Qc.QWACType
      (by decide) (by decide) (by decide) (by decide),
   C8_extract_permissive.2 [str "PSP_XX"]
      ⟨str "Financial Conduct Authority", str "GB-FCA"⟩ Qc.QWACType
      (str "PSP_XX") (by decide) (by decide)⟩

/-- C10: `Extract` tolerates arbitrary bytes after a well-formed outer
SEQUENCE, returning exactly the decode of that prefix. -/
theorem C10_trailing_data (pairs : List (List Nat × List Nat))
    (ca : Qc.CompetentAuthority) (t : List Nat) (extra : List Nat)
    (hp : ∀ p ∈ pairs, encodeRoleOK p) (ht : oidValidB t = true)
    (hn : utf8Valid ca.Name = true) (hi : utf8Valid ca.ID = true) :
    ∃ bytes, Qc.encodeRoot pairs ca t = some bytes ∧
      Qc.Extract (bytes ++ extra) = some (pairs.map Prod.snd, ca.Name, ca.ID) ∧
      Qc.Extract (bytes ++ extra) = Qc.Extract bytes := by
  obtain ⟨bytes, henc, hext⟩ := extract_encodeRoot pairs ca t hp ht hn hi
  refine ⟨bytes, henc, hext extra, ?_⟩
  have h2 := hext []
  rw [List.append_nil] at h2
  rw [hext extra, h2]

/-- C10 witness: trailing garbage after a concrete statement is ignored. -/
theorem C10_trailing_data_witness :
    ∃ bytes, Qc.encodeRoot [(Qc.roleOID 3, Qc.RoleAccountInformation)]
        ⟨str "Financial Conduct Authority", str "GB-FCA"⟩ Qc.QSEALType = some bytes ∧
      Qc.Extract (bytes ++ [255, 0, 1]) = some ([Qc.RoleAccountInformation],
        str "Financial Conduct Authority", str "GB-FCA") ∧
      Qc.Extract (bytes ++ [255, 0, 1]) = Qc.Extract bytes :=
  C10_trailing_data [(Qc.roleOID 3, Qc.RoleAccountInformation)]
    ⟨str "Financial Conduct Authority", str "GB-FCA"⟩ Qc.QSEALType [255, 0, 1]
    (by decide) (by decide) (by decide) (by decide)

/-! ## Validation against external reference values

These checks tie the embedding to Go-produced data: the legacy serializer
reproduces both section-6 payloads byte for byte, and the SHA-1 embedding
reproduces the standard test vectors. -/

set_option maxRecDepth 40000 in
theorem legacy_serialize_hexVec1 :
    EidasLegacy.Serialize [Qc.RolePaymentInitiation, Qc.RoleAccountInformation]
      (str "Financial Conduct Authority") (str "GB-FCA") = some hexVec1 := by
  decide

set_option maxRecDepth 40000 in
theorem legacy_serialize_hexVec2 :
    EidasLegacy.Serialize [Qc.RoleAccountServicing, Qc.RolePaymentInstruments]
      (str "Financial Conduct Authority") (str "GB-FCA") = some hexVec2 := by
  decide

set_option maxRecDepth 40000 in
theorem sha1_vector_abc :
    Sha1.sha1 (str "abc") =
      [169, 153, 62, 54, 71, 6, 129, 106, 186, 62, 37, 113, 120, 80, 194, 108,
       156, 208, 216, 157] := by
  decide

set_option maxRecDepth 40000 in
theorem sha1_vector_empty :
    Sha1.sha1 [] =
      [218, 57, 163, 238, 94, 107, 75, 13, 50, 85, 191, 239, 149, 96, 24, 144,
       175, 216, 7, 9] := by
  decide

end Eidas
